import Mathlib

/-!
Verification of the MemoryKeep conversational-agent engine (MAGGIE).

The definitions below are a shallow embedding, in Lean, of the engine's
JavaScript source: the stream/capacity manager, the consolidation
("sleep") procedure, the decaying knowledge graph, the inference-call
scheduler (rate limit, dedup cache, single-flight lock) and the
tool-orchestration loop.  JavaScript strings are modelled by `String`
(operations such as `trim`, `toUpperCase`, `split` are re-implemented
on the character list), SQL `DOUBLE` columns by `ℚ`, wall-clock
milliseconds by `ℕ`, and the MySQL tables by in-memory lists.  Platform
primitives that the engine only consumes (`JSON.parse`, the reasoning
service, the tool handlers) are passed in as function parameters.
-/

set_option maxRecDepth 10000

namespace Maice

/-! ## JavaScript string primitives -/

/-- JS `String.prototype.trim()` on a character list: whitespace is dropped
from both ends. -/
def trimL (l : List Char) : List Char :=
  ((l.dropWhile Char.isWhitespace).reverse.dropWhile Char.isWhitespace).reverse

/-- JS `s.trim()`. -/
def jsTrim (s : String) : String := String.mk (trimL s.data)

/-- JS `s.toUpperCase()` (ASCII, which is all the engine compares). -/
def jsToUpper (s : String) : String := String.mk (s.data.map Char.toUpper)

/-- JS `s.toLowerCase()` (ASCII). -/
def jsToLower (s : String) : String := String.mk (s.data.map Char.toLower)

/-- `startsWithL s p` : does the character list `s` begin with `p`?
(JS `s.startsWith(p)`.) -/
def startsWithL : List Char → List Char → Bool
  | _, [] => true
  | [], _ :: _ => false
  | a :: as, b :: bs => a == b && startsWithL as bs

/-- JS `s.startsWith(p)`. -/
def jsStarts (s p : String) : Bool := startsWithL s.data p.data

/-- JS `s.slice(n)` for `n ≥ 0`. -/
def jsSliceFrom (s : String) (n : ℕ) : String := String.mk (s.data.drop n)

/-- JS `s.slice(0, n)` for `n ≥ 0`. -/
def jsTake (s : String) (n : ℕ) : String := String.mk (s.data.take n)

/-- Split a character list at every character satisfying `p`
(JS `String.prototype.split`; empty fields are kept, the engine filters
them away afterwards). -/
def splitPr (p : Char → Bool) : List Char → List (List Char)
  | [] => [[]]
  | c :: cs =>
    match splitPr p cs with
    | [] => [[c]]
    | h :: t => if p c then [] :: h :: t else (c :: h) :: t

/-- JS `s.split(sep)` for a one-character separator. -/
def jsSplitChar (s : String) (sep : Char) : List String :=
  (splitPr (fun c => c == sep) s.data).map String.mk

/-- `hasSub hay needle` : does `hay` contain `needle` as a contiguous
substring?  (SQL `LIKE '%needle%'`.) -/
def hasSub : List Char → List Char → Bool
  | [], needle => needle.isEmpty
  | hay@(_ :: t), needle => startsWithL hay needle || hasSub t needle

/-- JS `arr.join(sep)`. -/
def joinSep (sep : String) : List String → String
  | [] => ""
  | [x] => x
  | x :: y :: t => x ++ sep ++ joinSep sep (y :: t)

/-- JS `arr.join('\n')`, the join used for snapshots and tool results. -/
def joinNL (l : List String) : String := joinSep "\n" l

/-- JS `x || d` on a possibly-missing nonnegative number: `undefined` and
`0` are falsy and give the default. -/
def jsOrNat (v : Option ℕ) (d : ℕ) : ℕ :=
  match v with
  | none => d
  | some 0 => d
  | some (n + 1) => n + 1

/-- JS `x || d` on a possibly-missing string: `undefined` and `""` are
falsy and give the default. -/
def jsOrStr (v : Option String) (d : String) : String :=
  match v with
  | none => d
  | some s => if s = "" then d else s

/-! ### Basic facts about the string model -/

theorem data_append (a b : String) : (a ++ b).data = a.data ++ b.data := by
  cases a; cases b; rfl

theorem ne_empty_of_data_ne_nil {s : String} (h : s.data ≠ []) : s ≠ "" := by
  intro hc; subst hc; exact h rfl

theorem append_ne_empty_left (a b : String) (h : a ≠ "") : a ++ b ≠ "" := by
  apply ne_empty_of_data_ne_nil
  rw [data_append]
  intro hc
  rcases List.append_eq_nil.mp hc with ⟨ha, _⟩
  apply h
  cases a
  simp_all

/-- A string containing a non-whitespace character does not trim to the
empty string. -/
theorem jsTrim_ne_empty {s : String} {c : Char}
    (hc : c ∈ s.data) (hw : ¬ c.isWhitespace) : jsTrim s ≠ "" := by
  apply ne_empty_of_data_ne_nil
  show trimL s.data ≠ []
  unfold trimL
  intro hnil
  have h1 : (s.data.dropWhile Char.isWhitespace).reverse.dropWhile Char.isWhitespace = [] := by
    simpa using congrArg List.reverse hnil
  have h2 : ∀ x ∈ (s.data.dropWhile Char.isWhitespace).reverse, Char.isWhitespace x =
      true := List.dropWhile_eq_nil_iff.mp h1
  have h3 : s.data.dropWhile Char.isWhitespace ≠ [] := by
    intro h0
    exact hw (List.dropWhile_eq_nil_iff.mp h0 c hc)
  -- the head of `dropWhile` is not whitespace, yet `h2` says every
  -- remaining character is whitespace
  rcases hd : s.data.dropWhile Char.isWhitespace with _ | ⟨a, as⟩
  · exact h3 hd
  · have ha : ¬ Char.isWhitespace a := by
      have := List.head?_dropWhile_not Char.isWhitespace s.data
      rw [hd] at this
      simpa using this
    exact ha (h2 a (by simp [hd]))

/-! ## Stream & capacity manager -/

/-- One conversation turn of the stream buffer. -/
structure Turn where
  role : String
  content : String
  deriving DecidableEq

/-- `_getTokenEstimate(text)`: `Math.ceil(text.length / 4)`. -/
def getTokenEstimate (text : String) : ℕ := (text.data.length + 3) / 4

/-- `_getStreamTokens()`: sum of the per-turn estimates. -/
def getStreamTokens (stream : List Turn) : ℕ :=
  (stream.map (fun m => getTokenEstimate m.content)).sum

/-- C8: the token estimator is a deterministic function of the text (it is a
pure Lean function of the string) and is monotone under concatenation: the
estimate of `a ++ b` dominates the estimates of `a` and of `b`. -/
theorem c8_estimator_monotone (a b : String) :
    getTokenEstimate a ≤ getTokenEstimate (a ++ b)
    ∧ getTokenEstimate b ≤ getTokenEstimate (a ++ b) := by
  unfold getTokenEstimate
  rw [data_append, List.length_append]
  constructor
  · exact Nat.div_le_div_right (by omega)
  · exact Nat.div_le_div_right (by omega)

/-! ## Graph memory

The MySQL tables `graph_nodes` and `graph_edges` are modelled by lists of
records; the `DOUBLE` columns `strength` and `weight` by `ℚ`.  Each SQL
statement issued by the engine is one constructor of `GraphOp`. -/

/-- A row of `graph_nodes` (the `label` column is `UNIQUE`). -/
structure GNode where
  label : String
  type : String
  strength : ℚ
  deriving DecidableEq

/-- A row of `graph_edges` (`(source, target, relationship)` is `UNIQUE`). -/
structure GEdge where
  source : String
  target : String
  relationship : String
  weight : ℚ
  deriving DecidableEq

/-- The graph store. -/
structure Graph where
  nodes : List GNode
  edges : List GEdge
  deriving DecidableEq

/-- The SQL statements the engine issues against the graph store.
`qNodes`/`qEdges` are the two `SELECT`s of `getRelatedMemories`; the other
four are the decay/prune statements of `performMemoryKeep`. -/
inductive GraphOp where
  | qNodes (words : List String)
  | qEdges (labels : List String) (limit : ℕ)
  | decayNodes
  | decayEdges
  | pruneNodes
  | pruneEdges
  deriving DecidableEq

/-- `UPDATE graph_nodes SET strength = strength * 0.95` on one row. -/
def decayN (n : GNode) : GNode := { n with strength := n.strength * (0.95 : ℚ) }

/-- A row survives `DELETE FROM graph_nodes WHERE strength < 0.1`. -/
def keepN (n : GNode) : Bool := !(n.strength < (0.1 : ℚ))

/-- `UPDATE graph_edges SET weight = weight * 0.95` on one row. -/
def decayE (e : GEdge) : GEdge := { e with weight := e.weight * (0.95 : ℚ) }

/-- A row survives `DELETE FROM graph_edges WHERE weight < 0.1`. -/
def keepE (e : GEdge) : Bool := !(e.weight < (0.1 : ℚ))

/-- The state change performed by one SQL statement (`SELECT`s leave the
store unchanged). -/
def applyOp : GraphOp → Graph → Graph
  | .qNodes _, g => g
  | .qEdges _ _, g => g
  | .decayNodes, g => { g with nodes := g.nodes.map decayN }
  | .decayEdges, g => { g with edges := g.edges.map decayE }
  | .pruneNodes, g => { g with nodes := g.nodes.filter keepN }
  | .pruneEdges, g => { g with edges := g.edges.filter keepE }

/-- Run a sequence of SQL statements against the store. -/
def runOps (ops : List GraphOp) (g : Graph) : Graph :=
  ops.foldl (fun h op => applyOp op h) g

/-- The four statements of the "Synaptic Pruning" step of
`performMemoryKeep`, in source order: decay all node strengths, decay all
edge weights, delete nodes below 0.1, delete edges below 0.1. -/
def memoryKeepGraphOps : List GraphOp :=
  [GraphOp.decayNodes, GraphOp.decayEdges, GraphOp.pruneNodes, GraphOp.pruneEdges]

/-- One consolidation cycle's effect on the graph. -/
def decayPrune (g : Graph) : Graph := runOps memoryKeepGraphOps g

/-- `N` consolidation cycles in which no upsert touches the graph. -/
def decayCycles : ℕ → Graph → Graph
  | 0, g => g
  | n + 1, g => decayCycles n (decayPrune g)

/-- The node-table effect of one cycle. -/
def nodeStep (l : List GNode) : List GNode := (l.map decayN).filter keepN

/-- The edge-table effect of one cycle. -/
def edgeStep (l : List GEdge) : List GEdge := (l.map decayE).filter keepE

/-- Iterated node-table effect. -/
def nodeIter : ℕ → List GNode → List GNode
  | 0, l => l
  | n + 1, l => nodeIter n (nodeStep l)

/-- Iterated edge-table effect. -/
def edgeIter : ℕ → List GEdge → List GEdge
  | 0, l => l
  | n + 1, l => edgeIter n (edgeStep l)

theorem decayPrune_eq (g : Graph) :
    decayPrune g = ⟨nodeStep g.nodes, edgeStep g.edges⟩ := rfl

theorem decayCycles_eq (N : ℕ) (g : Graph) :
    decayCycles N g = ⟨nodeIter N g.nodes, edgeIter N g.edges⟩ := by
  induction N generalizing g with
  | zero => rfl
  | succ n ih => rw [decayCycles, ih, decayPrune_eq]; rfl

theorem nodeIter_mem (N : ℕ) :
    ∀ (l : List GNode) (lab ty : String) (s : ℚ),
      GNode.mk lab ty s ∈ l → 0 ≤ s → (0.1 : ℚ) ≤ s * 0.95 ^ N →
      GNode.mk lab ty (s * 0.95 ^ N) ∈ nodeIter N l := by
  induction N with
  | zero =>
    intro l lab ty s hmem _ _
    simpa [nodeIter] using hmem
  | succ n ih =>
    intro l lab ty s hmem hs hth
    have hpow : (0.95 : ℚ) ^ n ≤ 1 := pow_le_one₀ (by norm_num) (by norm_num)
    have harr : s * 0.95 ^ (n + 1) = s * 0.95 * 0.95 ^ n := by ring
    rw [harr] at hth
    have hle : s * 0.95 * 0.95 ^ n ≤ s * 0.95 * 1 :=
      mul_le_mul_of_nonneg_left hpow (by positivity)
    have hmem' : GNode.mk lab ty (s * 0.95) ∈ nodeStep l := by
      refine List.mem_filter.mpr ⟨List.mem_map.mpr ⟨GNode.mk lab ty s, hmem, rfl⟩, ?_⟩
      simp only [keepN, Bool.not_eq_eq_eq_not, Bool.not_true, decide_eq_false_iff_not, not_lt]
      calc (0.1 : ℚ) ≤ s * 0.95 * 0.95 ^ n := hth
        _ ≤ s * 0.95 * 1 := hle
        _ = s * 0.95 := by ring
    have := ih (nodeStep l) lab ty (s * 0.95) hmem' (by positivity) hth
    rw [show s * (0.95 : ℚ) ^ (n + 1) = s * 0.95 * 0.95 ^ n from by ring]
    simpa [nodeIter] using this

theorem nodeIter_src (N : ℕ) :
    ∀ (l : List GNode) (m : GNode), m ∈ nodeIter N l →
      ∃ n ∈ l, m.label = n.label ∧ m.strength = n.strength * 0.95 ^ N ∧
        (N = 0 ∨ (0.1 : ℚ) ≤ m.strength) := by
  induction N with
  | zero =>
    intro l m hm
    exact ⟨m, by simpa [nodeIter] using hm, rfl, by rw [pow_zero, mul_one], Or.inl rfl⟩
  | succ n ih =>
    intro l m hm
    obtain ⟨n1, hn1, hlab, hs, hdisj⟩ := ih (nodeStep l) m (by simpa [nodeIter] using hm)
    obtain ⟨hmap, hkeep⟩ := List.mem_filter.mp hn1
    obtain ⟨n0, hn0, hEq⟩ := List.mem_map.mp hmap
    have hn1s : n1.strength = n0.strength * 0.95 := by rw [← hEq]; rfl
    have hn1l : n1.label = n0.label := by rw [← hEq]; rfl
    refine ⟨n0, hn0, hlab.trans hn1l, ?_, Or.inr ?_⟩
    · rw [hs, hn1s]; ring
    · rcases hdisj with h0 | hge
      · subst h0
        have : (0.1 : ℚ) ≤ n1.strength := by
          simpa [keepN, not_lt] using hkeep
        rw [hs, pow_zero, mul_one]; exact this
      · exact hge

theorem edgeIter_mem (N : ℕ) :
    ∀ (l : List GEdge) (src tgt rel : String) (w : ℚ),
      GEdge.mk src tgt rel w ∈ l → 0 ≤ w → (0.1 : ℚ) ≤ w * 0.95 ^ N →
      GEdge.mk src tgt rel (w * 0.95 ^ N) ∈ edgeIter N l := by
  induction N with
  | zero =>
    intro l src tgt rel w hmem _ _
    simpa [edgeIter] using hmem
  | succ n ih =>
    intro l src tgt rel w hmem hw hth
    have hpow : (0.95 : ℚ) ^ n ≤ 1 := pow_le_one₀ (by norm_num) (by norm_num)
    have harr : w * 0.95 ^ (n + 1) = w * 0.95 * 0.95 ^ n := by ring
    rw [harr] at hth
    have hle : w * 0.95 * 0.95 ^ n ≤ w * 0.95 * 1 :=
      mul_le_mul_of_nonneg_left hpow (by positivity)
    have hmem' : GEdge.mk src tgt rel (w * 0.95) ∈ edgeStep l := by
      refine List.mem_filter.mpr ⟨List.mem_map.mpr ⟨GEdge.mk src tgt rel w, hmem, rfl⟩, ?_⟩
      simp only [keepE, Bool.not_eq_eq_eq_not, Bool.not_true, decide_eq_false_iff_not, not_lt]
      calc (0.1 : ℚ) ≤ w * 0.95 * 0.95 ^ n := hth
        _ ≤ w * 0.95 * 1 := hle
        _ = w * 0.95 := by ring
    have := ih (edgeStep l) src tgt rel (w * 0.95) hmem' (by positivity) hth
    rw [show w * (0.95 : ℚ) ^ (n + 1) = w * 0.95 * 0.95 ^ n from by ring]
    simpa [edgeIter] using this

theorem edgeIter_src (N : ℕ) :
    ∀ (l : List GEdge) (f : GEdge), f ∈ edgeIter N l →
      ∃ e ∈ l, f.source = e.source ∧ f.target = e.target ∧
        f.relationship = e.relationship ∧ f.weight = e.weight * 0.95 ^ N ∧
        (N = 0 ∨ (0.1 : ℚ) ≤ f.weight) := by
  induction N with
  | zero =>
    intro l f hf
    exact ⟨f, by simpa [edgeIter] using hf, rfl, rfl, rfl, by rw [pow_zero, mul_one],
      Or.inl rfl⟩
  | succ n ih =>
    intro l f hf
    obtain ⟨e1, he1, hs, ht, hr, hw, hdisj⟩ := ih (edgeStep l) f (by simpa [edgeIter] using hf)
    obtain ⟨hmap, hkeep⟩ := List.mem_filter.mp he1
    obtain ⟨e0, he0, hEq⟩ := List.mem_map.mp hmap
    have he1w : e1.weight = e0.weight * 0.95 := by rw [← hEq]; rfl
    refine ⟨e0, he0, hs.trans (by rw [← hEq]; rfl), ht.trans (by rw [← hEq]; rfl),
      hr.trans (by rw [← hEq]; rfl), ?_, Or.inr ?_⟩
    · rw [hw, he1w]; ring
    · rcases hdisj with h0 | hge
      · subst h0
        have : (0.1 : ℚ) ≤ e1.weight := by
          simpa [keepE, not_lt] using hkeep
        rw [hw, pow_zero, mul_one]; exact this
      · exact hge

/-- C3: after `N` consolidation cycles in which a node is never re-observed,
its strength is exactly `initial * 0.95 ^ N`; it is still present while
that value is at least the forget threshold `0.1` and absent once the value
drops below `0.1`.  The same decay factor and deletion threshold govern
edge weights.  (Labels are unique in `graph_nodes` and the edge key triple
is unique in `graph_edges`; those table constraints are the uniqueness
hypotheses.) -/
theorem c3_decay_monotonicity (g : Graph) (N : ℕ) (n : GNode) (e : GEdge)
    (hn : n ∈ g.nodes) (hns : (0.1 : ℚ) ≤ n.strength)
    (hnu : ∀ m ∈ g.nodes, m.label = n.label → m = n)
    (he : e ∈ g.edges) (hes : (0.1 : ℚ) ≤ e.weight)
    (heu : ∀ f ∈ g.edges, f.source = e.source → f.target = e.target →
      f.relationship = e.relationship → f = e) :
    ((0.1 : ℚ) ≤ n.strength * 0.95 ^ N →
      GNode.mk n.label n.type (n.strength * 0.95 ^ N) ∈ (decayCycles N g).nodes
      ∧ ∀ m ∈ (decayCycles N g).nodes, m.label = n.label →
          m.strength = n.strength * 0.95 ^ N)
    ∧ (n.strength * 0.95 ^ N < 0.1 →
        ∀ m ∈ (decayCycles N g).nodes, m.label ≠ n.label)
    ∧ ((0.1 : ℚ) ≤ e.weight * 0.95 ^ N →
        GEdge.mk e.source e.target e.relationship (e.weight * 0.95 ^ N) ∈
          (decayCycles N g).edges)
    ∧ (e.weight * 0.95 ^ N < 0.1 →
        ∀ f ∈ (decayCycles N g).edges, ¬(f.source = e.source ∧ f.target = e.target ∧
          f.relationship = e.relationship)) := by
  have hn0 : (0 : ℚ) ≤ n.strength := le_trans (by norm_num) hns
  have he0 : (0 : ℚ) ≤ e.weight := le_trans (by norm_num) hes
  rw [decayCycles_eq]
  refine ⟨fun hth => ⟨?_, ?_⟩, fun hlt m hm hml => ?_, fun hth => ?_, fun hlt f hf hk => ?_⟩
  · exact nodeIter_mem N g.nodes n.label n.type n.strength (by
      rcases n with ⟨a, b, c⟩; exact hn) hn0 hth
  · intro m hm hml
    obtain ⟨n0, hn0m, hlab, hstr, _⟩ := nodeIter_src N g.nodes m hm
    have : n0 = n := hnu n0 hn0m (hlab ▸ hml)
    rw [hstr, this]
  · obtain ⟨n0, hn0m, hlab, hstr, hdisj⟩ := nodeIter_src N g.nodes m hm
    have hn0n : n0 = n := hnu n0 hn0m (hlab ▸ hml)
    subst hn0n
    rcases hdisj with h0 | hge
    · subst h0
      rw [pow_zero, mul_one] at hlt
      exact absurd hns (not_le.mpr hlt)
    · rw [hstr] at hge
      exact absurd hge (not_le.mpr hlt)
  · exact edgeIter_mem N g.edges e.source e.target e.relationship e.weight (by
      rcases e with ⟨a, b, c, d⟩; exact he) he0 hth
  · obtain ⟨e0, he0m, hs, ht, hr, hw, hdisj⟩ := edgeIter_src N g.edges f hf
    have he0e : e0 = e := heu e0 he0m (hs ▸ hk.1) (ht ▸ hk.2.1) (hr ▸ hk.2.2)
    subst he0e
    rcases hdisj with h0 | hge
    · subst h0
      rw [pow_zero, mul_one] at hlt
      exact absurd hes (not_le.mpr hlt)
    · rw [hw] at hge
      exact absurd hge (not_le.mpr hlt)

/-- Witness for C3 at a concrete graph: node `luna` with strength `2` and
edge `luna —[is_a]→ cat` with weight `1.2`, after two cycles. -/
theorem c3_witness :
    (GNode.mk "luna" "entity" 2 ∈ (⟨[GNode.mk "luna" "entity" 2],
        [GEdge.mk "luna" "cat" "is_a" 2]⟩ : Graph).nodes)
    ∧ GNode.mk "luna" "entity" (2 * 0.95 ^ 2) ∈
        (decayCycles 2 ⟨[GNode.mk "luna" "entity" 2],
          [GEdge.mk "luna" "cat" "is_a" 2]⟩).nodes := by
  refine ⟨by decide, ?_⟩
  exact ((c3_decay_monotonicity
    ⟨[GNode.mk "luna" "entity" 2], [GEdge.mk "luna" "cat" "is_a" 2]⟩ 2
    (GNode.mk "luna" "entity" 2) (GEdge.mk "luna" "cat" "is_a" 2)
    (by decide) (by norm_num) (by decide) (by decide) (by norm_num)
    (by decide)).1 (by norm_num)).1

/-! ## Consolidation ("Sleep") engine -/

/-- The in-memory engine state that `performMemoryKeep` reads and writes:
the stream buffer, the append-only `experience_memory` table (as the list
of its `content` values, in insertion order) and the graph store. -/
structure EngineState where
  stream : List Turn
  experiences : List String
  graph : Graph
  deriving DecidableEq

/-- The parsed sifter output: `{"summary": ..., "patterns": [...]}`.
Missing fields are `none` / `[]` (the source guards with
`analysis.summary || ...` and `analysis.patterns || []`). -/
structure SiftAnalysis where
  summary : Option String
  patterns : List String
  deriving DecidableEq

/-- The left-brace character (written by code point to keep brace
characters out of string literals). -/
def braceL : Char := Char.ofNat 123

/-- The right-brace character. -/
def braceR : Char := Char.ofNat 125

/-- JS `s.indexOf(c)` as an `Option` (JS returns `-1` when absent). -/
def idxFrom (c : Char) : List Char → Option ℕ
  | [] => none
  | a :: as => if a == c then some 0 else (idxFrom c as).map (· + 1)

/-- JS `s.lastIndexOf(c)` as an `Option`. -/
def lastIdxOf (c : Char) (l : List Char) : Option ℕ :=
  (idxFrom c l.reverse).map (fun i => l.length - 1 - i)

/-- The JSON-extraction step of `performMemoryKeep`:
`jsonStart = raw.indexOf('{')`, `jsonEnd = raw.lastIndexOf('}') + 1`, and
the slice `raw.slice(jsonStart, jsonEnd)` when
`jsonStart !== -1 && jsonEnd > jsonStart`; otherwise the engine throws
into its fallback path, modelled as `none`. -/
def jsonSlice (raw : String) : Option String :=
  match idxFrom braceL raw.data, lastIdxOf braceR raw.data with
  | some i, some j =>
    if i < j + 1 then some (String.mk ((raw.data.drop i).take (j + 1 - i))) else none
  | _, _ => none

/-- Step 1 of `performMemoryKeep`: the snapshot
`stream.map(m => role + ": " + content).join('\n')`. -/
def snapshotOf (stream : List Turn) : String :=
  joinNL (stream.map (fun m => m.role ++ ": " ++ m.content))

/-- JS `arr.slice(-n)`: the last `min n (length arr)` elements. -/
def lastSlice {α : Type} (l : List α) (n : ℕ) : List α := l.drop (l.length - n)

/-- The fixed text prepended to the raw snapshot by the fallback path. -/
def fallbackHeader : String :=
  "[RAW CONSOLIDATION FALLBACK] The Sleep Simulation sifter failed. Raw snapshot of conversation preserved:\n\n"

/-- `performMemoryKeep` (the Sleep Simulation), lines 1008–1080 of the
engine.  `parse` stands for the platform primitive `JSON.parse`
(returning `none` when parsing throws), `overlapCfg` for
`config.rolling_overlap`, `sifterReply` for the text returned by the
sifter call.  The side-channel `last_snapshot.txt` write is best-effort
and does not affect the state below.  On a successful parse the engine
persists the sifted patterns, decays/prunes the graph and flushes the
buffer to a summary turn plus the rolling overlap; on any failure it
persists the header-prefixed raw snapshot and truncates the buffer to the
most recent 15 turns, leaving the graph untouched. -/
def performMemoryKeep (parse : String → Option SiftAnalysis) (overlapCfg : Option ℕ)
    (st : EngineState) (sifterReply : String) : EngineState :=
  let snapshot := snapshotOf st.stream
  match (jsonSlice sifterReply).bind parse with
  | some analysis =>
    { stream := Turn.mk "system"
          ("[CONSOLIDATION SUMMARY] " ++ jsOrStr analysis.summary "Conversation consolidated.")
        :: lastSlice st.stream (jsOrNat overlapCfg 3),
      experiences := st.experiences ++ analysis.patterns.map (fun p => "[Sifter Pattern] " ++ p),
      graph := decayPrune st.graph }
  | none =>
    { stream := lastSlice st.stream 15,
      experiences := st.experiences ++ [fallbackHeader ++ snapshot],
      graph := st.graph }

/-- The concrete pre-consolidation state used to refute C1 as stated. -/
def st0 : EngineState := ⟨[Turn.mk "user" "hi"], [], ⟨[], []⟩⟩

/-- C1 counterexample: when the sifter output carries no JSON, the
experience store does gain a new record, but no record of the store equals
the pre-consolidation snapshot byte-for-byte — the fallback record is the
snapshot with a fixed header prefix. -/
theorem c1_counterexample :
    snapshotOf st0.stream ∉
        (performMemoryKeep (fun _ => none) none st0 "no json").experiences
    ∧ (performMemoryKeep (fun _ => none) none st0 "no json").experiences ≠ [] := by
  constructor
  · decide
  · decide

/-- C1 (amended): if the sifter call fails, returns no JSON, or its output
cannot be parsed, the experience store gains exactly one new record, namely
the fixed fallback header followed by the pre-consolidation snapshot (so the
snapshot is preserved byte-for-byte as a suffix of the record), the buffer
is truncated to the most recent 15 turns, and the graph is untouched. -/
theorem c1_fallback_no_loss (parse : String → Option SiftAnalysis) (cfg : Option ℕ)
    (st : EngineState) (raw : String)
    (h : (jsonSlice raw).bind parse = none) :
    (performMemoryKeep parse cfg st raw).experiences =
        st.experiences ++ [fallbackHeader ++ snapshotOf st.stream]
    ∧ (performMemoryKeep parse cfg st raw).stream = lastSlice st.stream 15
    ∧ (performMemoryKeep parse cfg st raw).graph = st.graph := by
  unfold performMemoryKeep
  rw [h]
  exact ⟨rfl, rfl, rfl⟩

/-- Witness for C1 at the concrete state `st0` with a sifter reply that
contains no JSON at all. -/
theorem c1_witness :
    (jsonSlice "no json").bind (fun _ => none) = (none : Option SiftAnalysis)
    ∧ (performMemoryKeep (fun _ => none) none st0 "no json").experiences =
        st0.experiences ++ [fallbackHeader ++ snapshotOf st0.stream] :=
  ⟨by decide, (c1_fallback_no_loss (fun _ => none) none st0 "no json" (by decide)).1⟩

/-! ## Budget trigger in `handleMessage` -/

/-- Events of one `handleMessage` call, in source order: the fire-and-forget
intake valve, the (conditional) consolidation, the graph recall, the primary
inference call that produces the reply, and the final append of the user
turn and reply to the stream. -/
inductive HEvent where
  | intake
  | consolidate
  | recall
  | inferCall
  | appendTurns
  deriving DecidableEq, BEq

/-- `currentTokens > cap * 0.85`, the context-cap check of `handleMessage`
(arithmetic over exact rationals). -/
def isOverBudget (cap tokens : ℕ) : Bool :=
  decide ((cap : ℚ) * 0.85 < (tokens : ℚ))

/-- `config.app_context_cap || 32000`. -/
def capOf (cfgCap : Option ℕ) : ℕ := jsOrNat cfgCap 32000

/-- The event trace of one `handleMessage` call on a buffer `stream` with a
configured context cap `cfgCap`: consolidation runs exactly when the
estimated stream tokens exceed 85% of the cap, and runs (awaited) before
the inference call that produces the reply. -/
def handleMessageEvents (cfgCap : Option ℕ) (stream : List Turn) : List HEvent :=
  [HEvent.intake]
    ++ (if isOverBudget (capOf cfgCap) (getStreamTokens stream) then [HEvent.consolidate] else [])
    ++ [HEvent.recall, HEvent.inferCall, HEvent.appendTurns]

/-- C2: whenever the estimated token count of the buffer exceeds 85% of the
configured cap, the next `handleMessage` invokes consolidation exactly once,
and before the inference call that produces the reply; at or below 85% it is
not invoked. -/
theorem c2_budget_trigger (cfgCap : Option ℕ) (stream : List Turn) :
    (isOverBudget (capOf cfgCap) (getStreamTokens stream) = true →
      (handleMessageEvents cfgCap stream).count HEvent.consolidate = 1
      ∧ handleMessageEvents cfgCap stream =
          [HEvent.intake, HEvent.consolidate, HEvent.recall, HEvent.inferCall,
            HEvent.appendTurns])
    ∧ (isOverBudget (capOf cfgCap) (getStreamTokens stream) = false →
      (handleMessageEvents cfgCap stream).count HEvent.consolidate = 0) := by
  constructor
  · intro h
    have ht : handleMessageEvents cfgCap stream =
        [HEvent.intake, HEvent.consolidate, HEvent.recall, HEvent.inferCall,
          HEvent.appendTurns] := by
      simp [handleMessageEvents, h]
    exact ⟨by rw [ht]; decide, ht⟩
  · intro h
    have ht : handleMessageEvents cfgCap stream =
        [HEvent.intake, HEvent.recall, HEvent.inferCall, HEvent.appendTurns] := by
      simp [handleMessageEvents, h]
    rw [ht]; decide

/-- Witness for C2: cap 4 (85% = 3.4 tokens) and a single 16-character turn
estimated at 4 tokens, which is over budget. -/
theorem c2_witness :
    isOverBudget (capOf (some 4)) (getStreamTokens [Turn.mk "user" "0123456789abcdef"]) = true
    ∧ (handleMessageEvents (some 4) [Turn.mk "user" "0123456789abcdef"]).count
        HEvent.consolidate = 1 := by
  have htok : getStreamTokens [Turn.mk "user" "0123456789abcdef"] = 4 := by decide
  have hcap : capOf (some 4) = 4 := by decide
  have hover : isOverBudget (capOf (some 4))
      (getStreamTokens [Turn.mk "user" "0123456789abcdef"]) = true := by
    rw [htok, hcap]
    simp only [isOverBudget, decide_eq_true_eq]
    norm_num
  exact ⟨hover, ((c2_budget_trigger (some 4) [Turn.mk "user" "0123456789abcdef"]).1 hover).1⟩
/-! ## Inference-call scheduler: single-flight lock

`callLLM` serialises "inference"-purpose calls through the `llmBusy` flag:
a waiter polls every 100 ms (`await setTimeout 100`), increments its
`waitCount` on every wake-up, force-clears the flag and proceeds once the
count passes 600 (the 60 s bound), and otherwise acquires at the first
poll that finds the flag clear; the holder's service call is raced against
a 55 s hard timeout, so an execution window lasts at most 550 polls, and
the `finally` block always clears the flag when a call ends.  Time is
modelled in 100 ms poll ticks and any number of concurrent inference
calls is simulated: one tick processes, in JavaScript callback order,
first the completions (`finally`) and then the arrivals and poll wake-ups
of every call. -/

/-- `waitCount > 600` forces the release (60 s of 100 ms sleeps). -/
def forceWaitPolls : ℕ := 600
/-- The 55 s `Promise.race` deadline, in 100 ms poll ticks. -/
def hardTimeoutPolls : ℕ := 550

/-- One inference-purpose call at the lock section: the tick at which it
reaches the `while (this.llmBusy)` wait and the ticks its service call
takes once started. -/
structure CallSpec where
  issue : ℕ
  dur : ℕ
  deriving DecidableEq

/-- The lock-protocol phase of one call: not yet issued, polling with the
current `waitCount`, mid-flight with its execution window
`[start, endT)`, or completed. -/
inductive Phase where
  | idle
  | polling (wc : ℕ)
  | running (start endT : ℕ)
  | done (start endT : ℕ)
  deriving DecidableEq

/-- The scheduler state: the `llmBusy` flag and each call's phase. -/
structure SimSt where
  busy : Bool
  phases : List Phase
  deriving DecidableEq

/-- Has this call completed? -/
def isDone : Phase → Bool
  | .done _ _ => true
  | _ => false

/-- Is this call mid-flight? -/
def isRun : Phase → Bool
  | .running _ _ => true
  | _ => false

/-- The `finally` block: a call whose service resolves at this tick sets
`llmBusy = false` and is done. -/
def completeOne (t : ℕ) (p : Phase) (b : Bool) : Phase × Bool :=
  match p with
  | .running s e => if e ≤ t then (.done s e, false) else (p, b)
  | _ => (p, b)

/-- All completions of one tick, in call order. -/
def completeStage (t : ℕ) : List Phase → Bool → List Phase × Bool
  | [], b => ([], b)
  | p :: ps, b =>
    let r := completeOne t p b
    let rest := completeStage t ps r.2
    (r.1 :: rest.1, rest.2)

/-- One call's arrival or 100 ms poll wake-up at tick `t`: an arriving
call acquires at once if the flag is clear, otherwise starts polling; a
polling call increments `waitCount`, force-clears and acquires once the
count passes `forceWaitPolls`, otherwise acquires exactly when the flag is
clear.  Acquiring sets `llmBusy = true` and opens the window
`[t, t + dur)`. -/
def pollOne (c : CallSpec) (t : ℕ) (p : Phase) (b : Bool) : Phase × Bool :=
  match p with
  | .idle =>
    if c.issue = t then
      if b then (.polling 0, b) else (.running t (t + c.dur), true)
    else (p, b)
  | .polling wc =>
    if forceWaitPolls < wc + 1 then (.running t (t + c.dur), true)
    else if b then (.polling (wc + 1), b)
    else (.running t (t + c.dur), true)
  | _ => (p, b)

/-- All arrivals and wake-ups of one tick, in call (callback-scheduling)
order: an acquisition is visible to the calls processed after it. -/
def pollStage (t : ℕ) : List CallSpec → List Phase → Bool → List Phase × Bool
  | _, [], b => ([], b)
  | [], ps, b => (ps, b)
  | c :: cs, p :: ps, b =>
    let r := pollOne c t p b
    let rest := pollStage t cs ps r.2
    (r.1 :: rest.1, rest.2)

/-- One 100 ms tick: completions first, then polls. -/
def stepTick (specs : List CallSpec) (t : ℕ) (st : SimSt) : SimSt :=
  let c := completeStage t st.phases st.busy
  let q := pollStage t specs c.1 c.2
  ⟨q.2, q.1⟩

/-- Run `k` ticks starting at tick `t` from state `st`. -/
def simAux (specs : List CallSpec) : SimSt → ℕ → ℕ → SimSt
  | st, _, 0 => st
  | st, t, k + 1 => simAux specs (stepTick specs t st) (t + 1) k

/-- The scheduler state after ticks `0, …, T-1`, starting unlocked with
every call unissued. -/
def simulate (specs : List CallSpec) (T : ℕ) : SimSt :=
  simAux specs ⟨false, specs.map (fun _ => Phase.idle)⟩ 0 T

theorem simAux_add (specs : List CallSpec) (k2 : ℕ) :
    ∀ (k1 : ℕ) (st : SimSt) (t : ℕ),
      simAux specs st t (k1 + k2) = simAux specs (simAux specs st t k1) (t + k1) k2 := by
  intro k1
  induction k1 with
  | zero => intro st t; simp [simAux]
  | succ n ih =>
    intro st t
    rw [show n + 1 + k2 = (n + k2) + 1 from by omega]
    show simAux specs (stepTick specs t st) (t + 1) (n + k2) = _
    rw [ih, show t + (n + 1) = (t + 1) + n from by omega]
    rfl

theorem simulate_succ (specs : List CallSpec) (T : ℕ) :
    simulate specs (T + 1) = stepTick specs T (simulate specs T) := by
  unfold simulate
  rw [simAux_add specs 1 T _ 0, Nat.zero_add]
  rfl

/-- The closed-form phase of a call that is issued at `issue`, acquires at
`s` and releases at `e`, as seen at time `T`. -/
def phaseAt (issue s e T : ℕ) : Phase :=
  if T ≤ issue then .idle
  else if T ≤ s then .polling (T - 1 - issue)
  else if T ≤ e then .running s e
  else .done s e

/-- The execution window of a call that has started. -/
def windowOf : Phase → Option (ℕ × ℕ)
  | .running s e => some (s, e)
  | .done s e => some (s, e)
  | _ => none

/-- Closed form of a run with exactly two inference calls, listed in issue
order (`ia ≤ ib`; an equal-tick tie is resolved by invocation order) with
the first call's window bounded by the hard timeout: the first call runs
`[ia, ia+da)`; the second acquires at `max ib (ia+da)` — on arrival if the
lock is free, else at the poll that observes the release — and its 60 s
force-release never fires, because `da ≤ 550 < 600` bounds its wait. -/
theorem simulate_two_closed (ia da ib db : ℕ) (hle : ia ≤ ib)
    (hda1 : 1 ≤ da) (hda5 : da ≤ hardTimeoutPolls) (hdb1 : 1 ≤ db) :
    ∀ T, simulate [⟨ia, da⟩, ⟨ib, db⟩] T =
      ⟨isRun (phaseAt ia ia (ia + da) T) ||
         isRun (phaseAt ib (max ib (ia + da)) (max ib (ia + da) + db) T),
       [phaseAt ia ia (ia + da) T,
        phaseAt ib (max ib (ia + da)) (max ib (ia + da) + db) T]⟩ := by
  have h550 : hardTimeoutPolls = 550 := rfl
  intro T
  induction T with
  | zero =>
    simp [simulate, simAux, phaseAt, isRun]
  | succ T ih =>
    rw [simulate_succ, ih]
    by_cases h1 : T < ia
    · -- R1: both still idle
      simp [phaseAt, stepTick, completeStage, completeOne, pollStage, pollOne, isRun,
        show T ≤ ia from by omega, show T ≤ ib from by omega,
        show T + 1 ≤ ia from by omega, show T + 1 ≤ ib from by omega,
        show ¬(ia = T) from by omega, show ¬(ib = T) from by omega]
    · push_neg at h1
      rcases Nat.eq_or_lt_of_le h1 with h2 | h2
    -- h2 : ia = T (call0 arrives) or ia < T
      · by_cases h3 : T < ib
        · -- R2a: call0 acquires, call1 not yet issued
          simp [phaseAt, stepTick, completeStage, completeOne, pollStage, pollOne, isRun,
            h2, hda1,
            show T ≤ ib from by omega, show ¬(T + 1 ≤ T) from by omega,
            show T + 1 ≤ ib from by omega, show ¬(ib = T) from by omega]
          try omega
        · -- R2b: ia = T = ib, call0 acquires first, call1 enters polling
          push_neg at h3
          have hib : ib = T := by omega
          simp [phaseAt, stepTick, completeStage, completeOne, pollStage, pollOne, isRun,
            h2, hib, hda1,
            show max T (T + da) = T + da from by omega,
            show ¬(T + 1 ≤ T) from by omega,
            show T + 1 - 1 - T = 0 from by omega]
          try omega
      · by_cases h4 : T < ia + da
        · by_cases h5 : T < ib
          · -- R3a: call0 running, call1 not yet issued
            simp [phaseAt, stepTick, completeStage, completeOne, pollStage, pollOne, isRun,
              show ¬(T ≤ ia) from by omega, show T ≤ ia + da from by omega,
              show ¬(ia + da ≤ T) from by omega,
              show T ≤ ib from by omega, show ¬(ib = T) from by omega,
              show ¬(T + 1 ≤ ia) from by omega, show T + 1 ≤ ia + da from by omega,
              show T + 1 ≤ ib from by omega]
          · push_neg at h5
            rcases Nat.eq_or_lt_of_le h5 with h6 | h6
            · -- R3b: call0 running, call1 arrives and enters polling
              simp [phaseAt, stepTick, completeStage, completeOne, pollStage, pollOne, isRun,
                h6,
                show ¬(T ≤ ia) from by omega, show T ≤ ia + da from by omega,
                show ¬(ia + da ≤ T) from by omega,
                show ¬(T + 1 ≤ ia) from by omega, show T + 1 ≤ ia + da from by omega,
                show ¬(T + 1 ≤ T) from by omega,
                show max T (ia + da) = ia + da from by omega,
                show T + 1 - 1 - T = 0 from by omega]
              try omega
            · -- R3c: call0 running, call1 polling on
              simp [phaseAt, stepTick, completeStage, completeOne, pollStage, pollOne, isRun,
                forceWaitPolls,
                show ¬(T ≤ ia) from by omega, show T ≤ ia + da from by omega,
                show ¬(ia + da ≤ T) from by omega,
                show ¬(T ≤ ib) from by omega, show T ≤ max ib (ia + da) from by omega,
                show ¬(600 < T - 1 - ib + 1) from by omega,
                show ¬(T + 1 ≤ ia) from by omega, show T + 1 ≤ ia + da from by omega,
                show ¬(T + 1 ≤ ib) from by omega,
                show T + 1 ≤ max ib (ia + da) from by omega]
              try omega
        · push_neg at h4
          rcases Nat.eq_or_lt_of_le h4 with h7 | h7
          -- h7 : ia + da = T (call0 completes this tick) or ia + da < T
          · by_cases h8 : T < ib
            · -- R3d: call0 completes, call1 not yet issued
              simp [phaseAt, stepTick, completeStage, completeOne, pollStage, pollOne, isRun,
                show ¬(T ≤ ia) from by omega, show T ≤ ia + da from by omega,
                show ia + da ≤ T from by omega,
                show T ≤ ib from by omega, show ¬(ib = T) from by omega,
                show ¬(T + 1 ≤ ia) from by omega, show ¬(T + 1 ≤ ia + da) from by omega,
                show T + 1 ≤ ib from by omega]
            · push_neg at h8
              rcases Nat.eq_or_lt_of_le h8 with h9 | h9
              · -- R3e: call0 completes, call1 arrives and acquires at once
                simp [phaseAt, stepTick, completeStage, completeOne, pollStage, pollOne, isRun,
                  h9, hdb1, Nat.max_self,
                  show ia + da = T from by omega,
                  show ¬(T ≤ ia) from by omega,
                  show ¬(T + 1 ≤ ia) from by omega,
                  show ¬(T + 1 ≤ T) from by omega]
                try omega
              · -- R3f: call0 completes, waiting call1 acquires
                simp [phaseAt, stepTick, completeStage, completeOne, pollStage, pollOne, isRun,
                  forceWaitPolls, hdb1,
                  show ia + da = T from by omega,
                  show max ib T = T from by omega,
                  show ¬(T ≤ ia) from by omega,
                  show ¬(T ≤ ib) from by omega,
                  show ¬(600 < T - 1 - ib + 1) from by omega,
                  show ¬(T + 1 ≤ ia) from by omega,
                  show ¬(T + 1 ≤ ib) from by omega,
                  show ¬(T + 1 ≤ T) from by omega]
                try omega
          · by_cases h10 : T < ib
            · -- R4a: call0 done, call1 not yet issued
              simp [phaseAt, stepTick, completeStage, completeOne, pollStage, pollOne, isRun,
                show ¬(T ≤ ia) from by omega, show ¬(T ≤ ia + da) from by omega,
                show T ≤ ib from by omega, show ¬(ib = T) from by omega,
                show ¬(T + 1 ≤ ia) from by omega, show ¬(T + 1 ≤ ia + da) from by omega,
                show T + 1 ≤ ib from by omega]
            · push_neg at h10
              rcases Nat.eq_or_lt_of_le h10 with h11 | h11
              · -- R4b: call0 done, call1 arrives and acquires
                simp [phaseAt, stepTick, completeStage, completeOne, pollStage, pollOne, isRun,
                  h11, hdb1,
                  show max T (ia + da) = T from by omega,
                  show ¬(T ≤ ia) from by omega, show ¬(T ≤ ia + da) from by omega,
                  show ¬(T + 1 ≤ ia) from by omega, show ¬(T + 1 ≤ ia + da) from by omega,
                  show ¬(T + 1 ≤ T) from by omega]
                try omega
              · -- call0 done, call1 running or done
                by_cases h12 : T < max ib (ia + da) + db
                · -- R4d1: call1 still running
                  simp [phaseAt, stepTick, completeStage, completeOne, pollStage, pollOne, isRun,
                    show ¬(T ≤ ia) from by omega, show ¬(T ≤ ia + da) from by omega,
                    show ¬(T ≤ ib) from by omega,
                    show ¬(T ≤ max ib (ia + da)) from by omega,
                    show T ≤ max ib (ia + da) + db from by omega,
                    show ¬(max ib (ia + da) + db ≤ T) from by omega,
                    show ¬(T + 1 ≤ ia) from by omega, show ¬(T + 1 ≤ ia + da) from by omega,
                    show ¬(T + 1 ≤ ib) from by omega,
                    show ¬(T + 1 ≤ max ib (ia + da)) from by omega,
                    show T + 1 ≤ max ib (ia + da) + db from by omega]
                · push_neg at h12
                  rcases Nat.eq_or_lt_of_le h12 with h13 | h13
                  · -- R4d2: call1 completes this tick
                    simp [phaseAt, stepTick, completeStage, completeOne, pollStage, pollOne, isRun,
                      show ¬(T ≤ ia) from by omega, show ¬(T ≤ ia + da) from by omega,
                      show ¬(T ≤ ib) from by omega,
                      show ¬(T ≤ max ib (ia + da)) from by omega,
                      show T ≤ max ib (ia + da) + db from by omega,
                      show max ib (ia + da) + db ≤ T from by omega,
                      show ¬(T + 1 ≤ ia) from by omega, show ¬(T + 1 ≤ ia + da) from by omega,
                      show ¬(T + 1 ≤ ib) from by omega,
                      show ¬(T + 1 ≤ max ib (ia + da)) from by omega,
                      show ¬(T + 1 ≤ max ib (ia + da) + db) from by omega]
                  · -- R4e: both done
                    simp [phaseAt, stepTick, completeStage, completeOne, pollStage, pollOne, isRun,
                      show ¬(T ≤ ia) from by omega, show ¬(T ≤ ia + da) from by omega,
                      show ¬(T ≤ ib) from by omega,
                      show ¬(T ≤ max ib (ia + da)) from by omega,
                      show ¬(T ≤ max ib (ia + da) + db) from by omega,
                      show ¬(T + 1 ≤ ia) from by omega, show ¬(T + 1 ≤ ia + da) from by omega,
                      show ¬(T + 1 ≤ ib) from by omega,
                      show ¬(T + 1 ≤ max ib (ia + da)) from by omega,
                      show ¬(T + 1 ≤ max ib (ia + da) + db) from by omega]


theorem pollStage_nil (t : ℕ) (ps : List Phase) (b : Bool) :
    pollStage t [] ps b = (ps, b) := by
  cases ps <;> rfl

theorem completeOne_false (t : ℕ) (p : Phase) : (completeOne t p false).2 = false := by
  cases p with
  | running s e => simp only [completeOne]; split <;> rfl
  | idle => rfl
  | polling wc => rfl
  | done s e => rfl

theorem completeStage_false (t : ℕ) :
    ∀ (ps : List Phase), (completeStage t ps false).2 = false := by
  intro ps
  induction ps with
  | nil => rfl
  | cons p ps ih =>
    show (completeStage t ps (completeOne t p false).2).2 = false
    rw [completeOne_false]
    exact ih

theorem completeStage_had_pending (t : ℕ) :
    ∀ (ps : List Phase) (b : Bool), (∃ p ∈ ps, isDone p = false) →
      (∀ q ∈ (completeStage t ps b).1, isDone q = true) →
      (completeStage t ps b).2 = false := by
  intro ps
  induction ps with
  | nil =>
    intro b hex _
    rcases hex with ⟨p, hp, _⟩
    simp at hp
  | cons p ps ih =>
    intro b hex hall
    cases p with
    | idle =>
      have h := hall Phase.idle (by simp [completeStage, completeOne])
      simp [isDone] at h
    | polling wc =>
      have h := hall (Phase.polling wc) (by simp [completeStage, completeOne])
      simp [isDone] at h
    | running s e =>
      by_cases hc : e ≤ t
      · show (completeStage t ps (completeOne t (Phase.running s e) b).2).2 = false
        rw [show (completeOne t (Phase.running s e) b).2 = false from by
          simp [completeOne, hc]]
        exact completeStage_false t ps
      · have h := hall (Phase.running s e) (by
          simp [completeStage, completeOne, hc])
        simp [isDone] at h
    | done s e =>
      have hex' : ∃ q ∈ ps, isDone q = false := by
        rcases hex with ⟨q, hq, hqd⟩
        rcases List.mem_cons.mp hq with rfl | hq'
        · simp [isDone] at hqd
        · exact ⟨q, hq', hqd⟩
      have hall' : ∀ q ∈ (completeStage t ps b).1, isDone q = true := by
        intro q hq
        apply hall
        simp only [completeStage, completeOne]
        exact List.mem_cons_of_mem _ hq
      show (completeStage t ps (completeOne t (Phase.done s e) b).2).2 = false
      exact ih b hex' hall'

theorem pollOne_not_done (c : CallSpec) (t : ℕ) (p : Phase) (b : Bool)
    (h : isDone p = false) : isDone (pollOne c t p b).1 = false := by
  cases p with
  | idle => simp only [pollOne]; split_ifs <;> simp [isDone]
  | polling wc => simp only [pollOne]; split_ifs <;> simp [isDone]
  | running s e => simpa [pollOne] using h
  | done s e => simp [isDone] at h

theorem pollStage_all_done (t : ℕ) :
    ∀ (cs : List CallSpec) (ps : List Phase) (b : Bool),
      (∀ q ∈ (pollStage t cs ps b).1, isDone q = true) →
      (∀ p ∈ ps, isDone p = true) ∧ (pollStage t cs ps b).2 = b := by
  intro cs
  induction cs with
  | nil =>
    intro ps b hall
    rw [pollStage_nil] at hall ⊢
    exact ⟨hall, rfl⟩
  | cons c cs ih =>
    intro ps b hall
    cases ps with
    | nil => exact ⟨by intro p hp; simp at hp, rfl⟩
    | cons p ps =>
      by_cases hd : isDone p = true
      · rcases p with _ | wc | ⟨s, e⟩ | ⟨s, e⟩ <;> simp [isDone] at hd
        -- p = .done s e
        have hall' : ∀ q ∈ (pollStage t cs ps b).1, isDone q = true := by
          intro q hq
          apply hall
          show q ∈ ((pollOne c t (Phase.done s e) b).1 ::
            (pollStage t cs ps (pollOne c t (Phase.done s e) b).2).1)
          exact List.mem_cons_of_mem _ hq
        obtain ⟨h1, h2⟩ := ih ps b hall'
        refine ⟨?_, h2⟩
        intro q hq
        rcases List.mem_cons.mp hq with rfl | hq'
        · rfl
        · exact h1 q hq'
      · exfalso
        have hdf : isDone p = false := by
          cases hb : isDone p
          · rfl
          · exact absurd hb hd
        have hh := hall (pollOne c t p b).1 (by
          show (pollOne c t p b).1 ∈ ((pollOne c t p b).1 ::
            (pollStage t cs ps (pollOne c t p b).2).1)
          exact List.mem_cons_self _ _)
        rw [pollOne_not_done c t p b hdf] at hh
        exact absurd hh (by simp)

/-- Once every simulated call has completed — including runs in which a
waiter force-released the lock — the `llmBusy` flag is false: every
acquisition is matched by a `finally` release. -/
theorem simulate_all_done_unlocked (specs : List CallSpec) :
    ∀ T, (∀ p ∈ (simulate specs T).phases, isDone p = true) →
      (simulate specs T).busy = false := by
  intro T
  induction T with
  | zero => intro _; rfl
  | succ T ih =>
    intro hall
    rw [simulate_succ] at hall ⊢
    have hall' : ∀ q ∈ (pollStage T specs
        (completeStage T (simulate specs T).phases (simulate specs T).busy).1
        (completeStage T (simulate specs T).phases (simulate specs T).busy).2).1,
        isDone q = true := by
      intro q hq
      exact hall q hq
    obtain ⟨hph1, hb2⟩ := pollStage_all_done T specs _ _ hall'
    show (pollStage T specs
        (completeStage T (simulate specs T).phases (simulate specs T).busy).1
        (completeStage T (simulate specs T).phases (simulate specs T).busy).2).2 = false
    rw [hb2]
    by_cases hstall : ∀ p ∈ (simulate specs T).phases, isDone p = true
    · rw [ih hstall]
      exact completeStage_false T _
    · push_neg at hstall
      obtain ⟨p, hp, hpd⟩ := hstall
      have hpf : isDone p = false := by
        cases hb : isDone p
        · rfl
        · exact absurd hb hpd
      exact completeStage_had_pending T _ _ ⟨p, hp, hpf⟩ hph1

/-- C5 (amended): with exactly two concurrently issued inference-purpose
calls (listed in issue order, an equal-tick tie resolved by invocation
order) whose in-flight time is bounded by the 55 s hard timeout, the two
execution windows never overlap: the single waiter observes the holder's
release before its own 60 s force-release could fire.  With three or more
concurrent inference calls the system-wide guarantee fails (see the
counterexample).  And in every run — forced releases included — each
call's `finally` clears the lock, so once all calls have completed the
lock is left unlocked. -/
theorem c5_single_flight_amended (specs : List CallSpec) (ia da ib db : ℕ)
    (hle : ia ≤ ib) (hda1 : 1 ≤ da) (hda5 : da ≤ hardTimeoutPolls) (hdb1 : 1 ≤ db) :
    (∀ T p0 p1 s0 e0 s1 e1,
      (simulate [⟨ia, da⟩, ⟨ib, db⟩] T).phases = [p0, p1] →
      windowOf p0 = some (s0, e0) → windowOf p1 = some (s1, e1) →
      e0 ≤ s1 ∨ e1 ≤ s0)
    ∧ (∀ T, (∀ p ∈ (simulate specs T).phases, isDone p = true) →
        (simulate specs T).busy = false) := by
  constructor
  · intro T p0 p1 s0 e0 s1 e1 hph hw0 hw1
    rw [simulate_two_closed ia da ib db hle hda1 hda5 hdb1 T] at hph
    obtain ⟨h0, h1⟩ : phaseAt ia ia (ia + da) T = p0 ∧
        phaseAt ib (max ib (ia + da)) (max ib (ia + da) + db) T = p1 := by
      simpa using hph
    subst h0
    subst h1
    unfold phaseAt at hw0 hw1
    split_ifs at hw0 hw1 <;> (simp [windowOf] at hw0 hw1; try (left; omega))
  · exact simulate_all_done_unlocked specs

/-- C5 counterexample: three inference calls issued concurrently, each
in-flight at most 550 ticks (the 55 s timeout).  The first runs
`[0, 550)`; the second acquires at 550 and runs `[550, 1100)`; the third
waiter's `waitCount` accumulates across both holders' windows, passes 600
at tick 601, force-clears `llmBusy` and runs `[601, 1151)` while the
second call is still mid-flight — two concurrently issued inference calls
with overlapping execution windows, refuting the claim that windows never
overlap and that at most one inference call is in flight system-wide. -/
theorem c5_counterexample :
    simulate [⟨0, 550⟩, ⟨0, 550⟩, ⟨0, 550⟩] 602 =
      ⟨true, [Phase.done 0 550, Phase.running 550 1100, Phase.running 601 1151]⟩
    ∧ 550 < 1151 ∧ 601 < 1100 := by
  refine ⟨?_, by omega, by omega⟩
  show simAux [⟨0, 550⟩, ⟨0, 550⟩, ⟨0, 550⟩]
    ⟨false, [Phase.idle, Phase.idle, Phase.idle]⟩ 0 602 = _
  have h1 : simAux [⟨0, 550⟩, ⟨0, 550⟩, ⟨0, 550⟩]
      ⟨false, [Phase.idle, Phase.idle, Phase.idle]⟩ 0 300
      = ⟨true, [Phase.running 0 550, Phase.polling 299, Phase.polling 299]⟩ := by decide
  have h2 : simAux [⟨0, 550⟩, ⟨0, 550⟩, ⟨0, 550⟩]
      ⟨true, [Phase.running 0 550, Phase.polling 299, Phase.polling 299]⟩ 300 300
      = ⟨true, [Phase.done 0 550, Phase.running 550 1100, Phase.polling 599]⟩ := by decide
  have h3 : simAux [⟨0, 550⟩, ⟨0, 550⟩, ⟨0, 550⟩]
      ⟨true, [Phase.done 0 550, Phase.running 550 1100, Phase.polling 599]⟩ 600 2
      = ⟨true, [Phase.done 0 550, Phase.running 550 1100, Phase.running 601 1151]⟩ := by
    decide
  rw [show (602 : ℕ) = 300 + (300 + 2) from by norm_num,
    simAux_add, h1, show (0 : ℕ) + 300 = 300 from rfl,
    simAux_add, h2, show (300 : ℕ) + 300 = 600 from rfl, h3]

/-- Witness for C5: the no-overlap half applied to a concrete two-call run
(issues 0 and 2, durations 5 and 3, windows `[0,5)` and `[5,8)`), and the
eventual-unlock half applied to the forced three-call run of the
counterexample, which reaches the all-done state with the lock cleared. -/
theorem c5_witness :
    ((5 : ℕ) ≤ 5 ∨ (8 : ℕ) ≤ 0)
    ∧ (simulate [⟨0, 550⟩, ⟨0, 550⟩, ⟨0, 550⟩] 1152).busy = false := by
  have hsim : simulate [⟨0, 550⟩, ⟨0, 550⟩, ⟨0, 550⟩] 1152 =
      ⟨false, [Phase.done 0 550, Phase.done 550 1100, Phase.done 601 1151]⟩ := by
    show simAux [⟨0, 550⟩, ⟨0, 550⟩, ⟨0, 550⟩]
      ⟨false, [Phase.idle, Phase.idle, Phase.idle]⟩ 0 1152 = _
    have h1 : simAux [⟨0, 550⟩, ⟨0, 550⟩, ⟨0, 550⟩]
        ⟨false, [Phase.idle, Phase.idle, Phase.idle]⟩ 0 300
        = ⟨true, [Phase.running 0 550, Phase.polling 299, Phase.polling 299]⟩ := by decide
    have h2 : simAux [⟨0, 550⟩, ⟨0, 550⟩, ⟨0, 550⟩]
        ⟨true, [Phase.running 0 550, Phase.polling 299, Phase.polling 299]⟩ 300 300
        = ⟨true, [Phase.done 0 550, Phase.running 550 1100, Phase.polling 599]⟩ := by decide
    have h3 : simAux [⟨0, 550⟩, ⟨0, 550⟩, ⟨0, 550⟩]
        ⟨true, [Phase.done 0 550, Phase.running 550 1100, Phase.polling 599]⟩ 600 2
        = ⟨true, [Phase.done 0 550, Phase.running 550 1100, Phase.running 601 1151]⟩ := by
      decide
    have h4 : simAux [⟨0, 550⟩, ⟨0, 550⟩, ⟨0, 550⟩]
        ⟨true, [Phase.done 0 550, Phase.running 550 1100, Phase.running 601 1151]⟩ 602 300
        = ⟨true, [Phase.done 0 550, Phase.running 550 1100, Phase.running 601 1151]⟩ := by
      decide
    have h5 : simAux [⟨0, 550⟩, ⟨0, 550⟩, ⟨0, 550⟩]
        ⟨true, [Phase.done 0 550, Phase.running 550 1100, Phase.running 601 1151]⟩ 902 198
        = ⟨true, [Phase.done 0 550, Phase.running 550 1100, Phase.running 601 1151]⟩ := by
      decide
    have h6 : simAux [⟨0, 550⟩, ⟨0, 550⟩, ⟨0, 550⟩]
        ⟨true, [Phase.done 0 550, Phase.running 550 1100, Phase.running 601 1151]⟩ 1100 52
        = ⟨false, [Phase.done 0 550, Phase.done 550 1100, Phase.done 601 1151]⟩ := by
      decide
    rw [show (1152 : ℕ) = 300 + (300 + (2 + (300 + (198 + 52)))) from by norm_num,
      simAux_add, h1, show (0 : ℕ) + 300 = 300 from rfl,
      simAux_add, h2, show (300 : ℕ) + 300 = 600 from rfl,
      simAux_add, h3, show (600 : ℕ) + 2 = 602 from rfl,
      simAux_add, h4, show (602 : ℕ) + 300 = 902 from rfl,
      simAux_add, h5, show (902 : ℕ) + 198 = 1100 from rfl, h6]
  constructor
  · exact (c5_single_flight_amended [⟨0, 550⟩, ⟨0, 550⟩, ⟨0, 550⟩] 0 5 2 3
      (by decide) (by decide) (by decide) (by decide)).1 17
      (Phase.done 0 5) (Phase.done 5 8) 0 5 5 8 (by decide) rfl rfl
  · have hdone : ∀ p ∈ (simulate [⟨0, 550⟩, ⟨0, 550⟩, ⟨0, 550⟩] 1152).phases,
        isDone p = true := by
      rw [hsim]
      decide
    exact (c5_single_flight_amended [⟨0, 550⟩, ⟨0, 550⟩, ⟨0, 550⟩] 0 5 2 3
      (by decide) (by decide) (by decide) (by decide)).2 1152 hdone

/-! ## Inference-call scheduler: rate limit and dedup cache

The prefix of `callLLM` before the model call: first the rate limiter
(`if (now - lastLLMCall < 2000) await sleep(2000 - (now - lastLLMCall))`),
then the redundancy check against `lastPrompts`
(fingerprint = `JSON.stringify(messages).slice(-200)`; a hit younger than
1500 ms returns `''` before the service is invoked), then the fingerprint
is recorded at the current time and the oldest entry evicted past 20.
`lastLLMCall` itself is only updated later (after the inference lock), by
`noteCallStart`. -/

/-- The scheduler state read by the `callLLM` prefix. -/
structure DedupState where
  lastCall : ℕ
  cache : List (String × ℕ)
  deriving DecidableEq

/-- The time at which a call issued at `t` performs its redundancy check:
its issue time, postponed to `lastCall + 2000` by the rate-limit sleep. -/
def wakeTime (lastCall t : ℕ) : ℕ :=
  if t - lastCall < 2000 then lastCall + 2000 else t

/-- JS `Map.get`. -/
def cacheFind (c : List (String × ℕ)) (k : String) : Option ℕ :=
  (c.find? (fun p => p.1 == k)).map (fun p => p.2)

/-- JS `Map.set`: update in place (keeping insertion order) or append. -/
def cacheSet (c : List (String × ℕ)) (k : String) (v : ℕ) : List (String × ℕ) :=
  if (c.find? (fun p => p.1 == k)).isSome then
    c.map (fun p => if p.1 == k then (k, v) else p)
  else c ++ [(k, v)]

/-- `if (lastPrompts.size > 20) delete oldest`. -/
def cacheEvict (c : List (String × ℕ)) : List (String × ℕ) :=
  if 20 < c.length then c.drop 1 else c

/-- The rate-limit + redundancy prefix of `callLLM` for a call issued at
time `t` with payload fingerprint `k`: returns whether the call is
suppressed (returning `''` without invoking the service), the time at
which the check ran, and the updated state. -/
def dedupPhase (s : DedupState) (t : ℕ) (k : String) : Bool × ℕ × DedupState :=
  let w := wakeTime s.lastCall t
  match cacheFind s.cache k with
  | some ts =>
    if w - ts < 1500 then (true, w, s)
    else (false, w, { s with cache := cacheEvict (cacheSet s.cache k w) })
  | none => (false, w, { s with cache := cacheEvict (cacheSet s.cache k w) })

/-- `this.lastLLMCall = Date.now()`, executed after the lock section. -/
def noteCallStart (s : DedupState) (t : ℕ) : DedupState := { s with lastCall := t }

/-- C6 counterexample: from a quiescent scheduler, a first call at t=2000
proceeds (recording its fingerprint and `lastLLMCall` at 2000); a second
call with the identical fingerprint issued 500 ms later — well within
1.5 s — is rate-limit-slept until t=4000, so its redundancy check sees a
2000 ms-old fingerprint and it is NOT suppressed, contradicting the claim
that it returns the empty string without invoking the service. -/
theorem c6_counterexample :
    (dedupPhase ⟨0, []⟩ 2000 "K").1 = false
    ∧ (dedupPhase
        (noteCallStart (dedupPhase ⟨0, []⟩ 2000 "K").2.2 2000)
        2500 "K").1 = false := by
  constructor
  · decide
  · decide

/-- C6 (amended): a second call with an identical payload fingerprint is
suppressed (returns the empty string without invoking the service) exactly
when its redundancy check — which runs only after the rate-limit sleep, at
`wakeTime lastCall t` — occurs less than 1500 ms after the fingerprint was
recorded.  A second call issued within 1.5 s of a quiescent first call is
therefore NOT suppressed (its check is postponed to 2000 ms after the
recording); suppression does occur when `lastLLMCall` is stale, e.g. while
the first call is still blocked on the inference lock. -/
theorem c6_dedup_suppression (lastCall t ts : ℕ) (cache : List (String × ℕ))
    (k : String) (h : cacheFind cache k = some ts) :
    (dedupPhase ⟨lastCall, cache⟩ t k).1 = true ↔ wakeTime lastCall t - ts < 1500 := by
  unfold dedupPhase
  rw [h]
  by_cases hlt : wakeTime lastCall t - ts < 1500
  · simp [hlt]
  · simp [hlt]

/-- Witness for C6 (the stale-`lastLLMCall` scenario): the first call is
blocked on the inference lock since recording its fingerprint at t=3000
while `lastLLMCall` is 0, so the second call at t=4000 skips the rate-limit
sleep, checks 1000 ms after the recording, and is suppressed. -/
theorem c6_witness :
    cacheFind [("K", 3000)] "K" = some 3000
    ∧ (dedupPhase ⟨0, [("K", 3000)]⟩ 4000 "K").1 = true :=
  ⟨by decide,
    (c6_dedup_suppression 0 4000 3000 [("K", 3000)] "K" (by decide)).mpr (by decide)⟩

/-! ## Inference-call scheduler: failure degradation -/

/-- The apology string returned to "inference" callers on any caught error:
`"[System Error] Neural core timeout or disconnect. (Ref: " +
err.message.slice(0, 80) + ")"`. -/
def inferenceApology (m : String) : String :=
  "[System Error] Neural core timeout or disconnect. (Ref: " ++ jsTake m 80 ++ ")"

/-- The `catch` arm of `callLLM`: `purposeGroup = purpose.toLowerCase()`;
inference calls degrade to the apology, every other purpose to `''`. -/
def llmCatch (purpose m : String) : String :=
  if jsToLower purpose = "inference" then inferenceApology m else ""

/-- The value `callLLM` returns past its boundary: the model text on
success, the degraded string from the `catch` arm on a timeout or any
transport failure (the 55 s `Promise.race` rejection is one such error). -/
def llmResult (purpose : String) (o : Except String String) : String :=
  match o with
  | .ok t => t
  | .error m => llmCatch purpose m

/-- C7: on a timeout or any transport failure, `callLLM` returns instead of
throwing: an "inference"-purpose call returns the non-empty apology string
carrying the error message truncated to 80 characters, and a call of any
other purpose returns the empty string. -/
theorem c7_error_degradation (p m : String) :
    (jsToLower p = "inference" →
      llmResult p (Except.error m) = inferenceApology m
      ∧ llmResult p (Except.error m) ≠ "")
    ∧ (jsToLower p ≠ "inference" → llmResult p (Except.error m) = "") := by
  constructor
  · intro h
    have he : llmResult p (Except.error m) = inferenceApology m := by
      simp [llmResult, llmCatch, h]
    refine ⟨he, ?_⟩
    rw [he]
    unfold inferenceApology
    apply append_ne_empty_left
    apply append_ne_empty_left
    decide
  · intro h
    simp [llmResult, llmCatch, h]

/-- Witness for C7: purpose "Inference" (case-normalised by the engine) and
a concrete error message. -/
theorem c7_witness :
    jsToLower "Inference" = "inference"
    ∧ llmResult "Inference" (Except.error "boom") = inferenceApology "boom" :=
  ⟨by decide, ((c7_error_degradation "Inference" "boom").1 (by decide)).1⟩

/-! ## Tool-orchestration loop

The multi-tool agent loop of `handleMessage` (lines 1161–1214): scan the
reply line by line for tool directives, execute them all, append the tool
results, regenerate the reply, and repeat for at most 2 rounds.  The tool
handlers and the regeneration calls are passed in as functions: `ex t a`
is the string result of `executeTool(t, a)` (a handler that throws is
captured by the source as a `[TOOL ERROR]` result string, so `ex` is
total), and `regen r` is the reply of the round-`r` regeneration call —
`none` when `callLLM` itself threw. -/

/-- The fixed tool registry of `handleMessage`, in source order. -/
def TOOL_NAMES : List String :=
  ["SEARCH", "REMEMBER", "TASK_ADD", "TASK_LIST", "TASK_DONE", "ANALYZE", "FETCH",
    "READ", "WRITE", "LIST_FILES", "TIME", "EMAIL", "BROWSE", "TELEGRAM"]

/-- Directive detection for one line: the trimmed line, upper-cased, either
starts with `TOOL:` (the rest, trimmed, is the argument) or equals a bare
tool name (no argument).  The per-tool `break` makes the first matching
tool (in registry order) win. -/
def parseLine (line : String) : Option (String × String) :=
  let t := jsTrim line
  let u := jsToUpper t
  match TOOL_NAMES.find? (fun tool => jsStarts u (tool ++ ":") || u == tool) with
  | none => none
  | some tool =>
    if jsStarts u (tool ++ ":") then
      some (tool, jsTrim (jsSliceFrom t (tool ++ ":").data.length))
    else some (tool, "")

/-- All directives recognised across the lines of one reply. -/
def parseToolCalls (reply : String) : List (String × String) :=
  (jsSplitChar reply '\n').filterMap parseLine

/-- The `[TOOL RESULT]` blocks collected in one round. -/
def toolResults (ex : String → String → String) (calls : List (String × String)) :
    List String :=
  calls.map (fun c => "[" ++ c.1 ++ " RESULT]\n" ++ ex c.1 c.2)

/-- One-to-two rounds of the agent loop.  `left` is the number of rounds
the `while (toolRound < 2)` guard still allows, `r` the current value of
`toolRound`.  In each round: if the current reply contains no directive the
loop exits; otherwise all directives are executed, the reply is
regenerated, and an empty (or thrown) regeneration is replaced by the
joined raw tool results. -/
def agentLoopAux (ex : String → String → String) (regen : ℕ → Option String) :
    ℕ → ℕ → String → String × ℕ
  | 0, r, reply => (reply, r)
  | left + 1, r, reply =>
    let calls := parseToolCalls reply
    if calls = [] then (reply, r)
    else
      let results := toolResults ex calls
      let next :=
        match regen r with
        | some s => if jsTrim s = "" then joinNL results else s
        | none => joinNL results
      agentLoopAux ex regen left (r + 1) next

/-- The agent loop as entered by `handleMessage`, with `toolRound = 0`. -/
def agentLoop (ex : String → String → String) (regen : ℕ → Option String)
    (reply : String) : String × ℕ :=
  agentLoopAux ex regen 2 0 reply

theorem agentLoopAux_rounds (ex : String → String → String)
    (regen : ℕ → Option String) :
    ∀ (left r : ℕ) (reply : String),
      (agentLoopAux ex regen left r reply).2 ≤ r + left := by
  intro left
  induction left with
  | zero => intro r reply; simp [agentLoopAux]
  | succ n ih =>
    intro r reply
    simp only [agentLoopAux]
    split
    · omega
    · exact Nat.le_trans (ih (r + 1) _) (by omega)

theorem joinSep_cons_data (sep x : String) (xs : List String) :
    ∃ r, (joinSep sep (x :: xs)).data = x.data ++ r := by
  cases xs with
  | nil => exact ⟨[], by simp [joinSep]⟩
  | cons y t =>
    refine ⟨sep.data ++ (joinSep sep (y :: t)).data, ?_⟩
    show (x ++ sep ++ joinSep sep (y :: t)).data = _
    rw [data_append, data_append, List.append_assoc]

/-- The joined tool results of a non-empty round never trim to empty: the
first block starts with the non-whitespace character `[`. -/
theorem joinNL_toolResults_trim_ne (ex : String → String → String)
    (c : String × String) (cs : List (String × String)) :
    jsTrim (joinNL (toolResults ex (c :: cs))) ≠ "" := by
  have hres : toolResults ex (c :: cs)
      = ("[" ++ c.1 ++ " RESULT]\n" ++ ex c.1 c.2) :: toolResults ex cs := by
    simp [toolResults]
  obtain ⟨r, hr⟩ := joinSep_cons_data "\n" ("[" ++ c.1 ++ " RESULT]\n" ++ ex c.1 c.2)
    (toolResults ex cs)
  have hmem : '[' ∈ (joinNL (toolResults ex (c :: cs))).data := by
    unfold joinNL
    rw [hres, hr]
    apply List.mem_append_left
    rw [data_append, data_append, data_append]
    apply List.mem_append_left
    apply List.mem_append_left
    apply List.mem_append_left
    decide
  exact jsTrim_ne_empty hmem (by decide)

theorem jsTrim_empty_of_eq {s : String} (h : s = "") : jsTrim s = "" := by
  rw [h]; rfl

/-- The agent loop preserves "does not trim to empty": each round's output
is either a regeneration that passed the non-empty check or the joined tool
results. -/
theorem agentLoopAux_trim_ne (ex : String → String → String)
    (regen : ℕ → Option String) :
    ∀ (left r : ℕ) (reply : String), jsTrim reply ≠ "" →
      jsTrim (agentLoopAux ex regen left r reply).1 ≠ "" := by
  intro left
  induction left with
  | zero => intro r reply h; simpa [agentLoopAux] using h
  | succ n ih =>
    intro r reply h
    rcases hc : parseToolCalls reply with _ | ⟨c, cs⟩
    · simp only [agentLoopAux, hc]
      simpa using h
    · simp only [agentLoopAux, hc]
      rw [if_neg (by simp)]
      apply ih
      rcases hreg : regen r with _ | s
      · simp only [hreg]
        exact joinNL_toolResults_trim_ne ex c cs
      · simp only [hreg]
        by_cases hs : jsTrim s = ""
        · rw [if_pos hs]; exact joinNL_toolResults_trim_ne ex c cs
        · rw [if_neg hs]; exact hs

/-- C4: the agent loop always stops after at most 2 regeneration rounds; a
model that re-emits a tool directive on every reply drives it through
exactly 2 rounds and the returned text is non-empty; and when the final
(round-1) regeneration trims to empty, the returned text is the joined raw
tool results of the final round. -/
theorem c4_tool_loop_bounded (ex : String → String → String)
    (regen : ℕ → Option String) (reply0 : String) :
    (agentLoop ex regen reply0).2 ≤ 2
    ∧ ((parseToolCalls reply0 ≠ [] ∧
        ∀ r, ∃ s, regen r = some s ∧ jsTrim s ≠ "" ∧ parseToolCalls s ≠ []) →
        (agentLoop ex regen reply0).2 = 2 ∧ (agentLoop ex regen reply0).1 ≠ "")
    ∧ (∀ s1 s2, parseToolCalls reply0 ≠ [] → regen 0 = some s1 → jsTrim s1 ≠ "" →
        parseToolCalls s1 ≠ [] → regen 1 = some s2 → jsTrim s2 = "" →
        (agentLoop ex regen reply0).1 = joinNL (toolResults ex (parseToolCalls s1))) := by
  refine ⟨?_, ?_, ?_⟩
  · have := agentLoopAux_rounds ex regen 2 0 reply0
    simpa [agentLoop] using this
  · rintro ⟨H0, HR⟩
    obtain ⟨s1, h1r, h1t, h1p⟩ := HR 0
    obtain ⟨s2, h2r, h2t, _⟩ := HR 1
    obtain ⟨c0, cs0, hc0⟩ := List.exists_cons_of_ne_nil H0
    obtain ⟨c1, cs1, hc1⟩ := List.exists_cons_of_ne_nil h1p
    have hloop : agentLoop ex regen reply0 = (s2, 2) := by
      unfold agentLoop
      simp only [agentLoopAux, hc0, hc1, h1r, h2r]
      rw [if_neg (by simp), if_neg h1t, if_neg h2t, hc1, if_neg (by simp)]
    rw [hloop]
    exact ⟨rfl, fun he => h2t (jsTrim_empty_of_eq he)⟩
  · intro s1 s2 H0 h1r h1t h1p h2r h2t
    obtain ⟨c0, cs0, hc0⟩ := List.exists_cons_of_ne_nil H0
    obtain ⟨c1, cs1, hc1⟩ := List.exists_cons_of_ne_nil h1p
    have hloop : agentLoop ex regen reply0 =
        (joinNL (toolResults ex (parseToolCalls s1)), 2) := by
      unfold agentLoop
      simp only [agentLoopAux, hc0, hc1, h1r, h2r]
      rw [if_neg (by simp), if_neg h1t, if_pos h2t, hc1, if_neg (by simp)]
    rw [hloop]

/-- Witness for C4: a reply consisting of the bare directive `TIME`, tool
results `"ok"`, and a model that re-emits `TIME` on every regeneration. -/
theorem c4_witness :
    parseToolCalls "TIME" ≠ []
    ∧ (agentLoop (fun _ _ => "ok") (fun _ => some "TIME") "TIME").2 = 2 :=
  ⟨by decide,
    ((c4_tool_loop_bounded (fun _ _ => "ok") (fun _ => some "TIME") "TIME").2.1
      ⟨by decide, fun _ => ⟨"TIME", rfl, by decide, by decide⟩⟩).1⟩

/-! ## `handleMessage` reply pipeline -/

/-- The fixed fallback sentence used when the primary inference reply is
empty or whitespace-only. -/
def fallbackLine : String :=
  "I heard you, but my neural core returned an empty response. Could you try again?"

/-- The leading text of the `catch`-arm reply of `handleMessage`'s primary
call (the apostrophe is spelled by code point). -/
def errLead : String :=
  "I" ++ String.mk [Char.ofNat 39] ++
    "m having trouble connecting to my neural core right now. ("

/-- The primary reply: the inference result, or the catch-arm string built
from the first 50 characters of the error message. -/
def primaryReply (o : Except String String) : String :=
  match o with
  | .ok t => t
  | .error m => errLead ++ jsTake m 50 ++ ")"

/-- The safety check `if (!reply || reply.trim().length === 0)`. -/
def ensureReply (r : String) : String := if jsTrim r = "" then fallbackLine else r

/-- The reply `handleMessage` returns: primary call, empty-reply fallback,
then the agent loop. -/
def handleMessageReply (o : Except String String) (ex : String → String → String)
    (regen : ℕ → Option String) : String :=
  (agentLoop ex regen (ensureReply (primaryReply o))).1

/-- C10: `handleMessage` never returns an empty or whitespace-only reply;
an empty primary inference reply is replaced by the fixed fallback sentence
(which contains no tool directive, so it is returned as is); and a
tool-round regeneration that throws is replaced by the joined raw tool
results. -/
theorem c10_reply_nonempty (o : Except String String)
    (ex : String → String → String) (regen : ℕ → Option String) :
    jsTrim (handleMessageReply o ex regen) ≠ ""
    ∧ (∀ t, o = Except.ok t → jsTrim t = "" →
        handleMessageReply o ex regen = fallbackLine)
    ∧ (∀ t, o = Except.ok t → jsTrim t ≠ "" → parseToolCalls t ≠ [] →
        regen 0 = none →
        parseToolCalls (joinNL (toolResults ex (parseToolCalls t))) = [] →
        handleMessageReply o ex regen = joinNL (toolResults ex (parseToolCalls t))) := by
  refine ⟨?_, ?_, ?_⟩
  · apply agentLoopAux_trim_ne
    unfold ensureReply
    by_cases hp : jsTrim (primaryReply o) = ""
    · rw [if_pos hp]; decide
    · rw [if_neg hp]; exact hp
  · intro t ho ht
    subst ho
    have hens : ensureReply (primaryReply (Except.ok t)) = fallbackLine := by
      simp [ensureReply, primaryReply, ht]
    unfold handleMessageReply
    rw [hens]
    have hfp : parseToolCalls fallbackLine = [] := by decide
    simp [agentLoop, agentLoopAux, hfp]
  · intro t ho ht hp hr0 hpj
    subst ho
    have hens : ensureReply (primaryReply (Except.ok t)) = t := by
      simp [ensureReply, primaryReply, ht]
    obtain ⟨c0, cs0, hc0⟩ := List.exists_cons_of_ne_nil hp
    unfold handleMessageReply agentLoop
    rw [hens]
    simp only [agentLoopAux, hc0, hr0]
    rw [if_neg (by simp), hc0.symm] at *
    simp only [agentLoopAux, hpj]
    simp [hc0]

/-- Witness for C10: an empty primary reply yields the fallback sentence. -/
theorem c10_witness :
    jsTrim "" = ""
    ∧ handleMessageReply (Except.ok "") (fun _ _ => "r") (fun _ => none) = fallbackLine :=
  ⟨rfl, (c10_reply_nonempty (Except.ok "") (fun _ _ => "r") (fun _ => none)).2.1 "" rfl rfl⟩

/-! ## Graph recall (`getRelatedMemories`) -/

/-- `query.toLowerCase().split(/\s+/).filter(w => w.length > 2)`. -/
def jsWords (q : String) : List String :=
  ((splitPr Char.isWhitespace (jsToLower q).data).map String.mk).filter
    (fun w => 2 < w.data.length)

/-- The `WHERE` clause of the node `SELECT`: the label matches
`LIKE '%w%'` for some query word, and `strength > 1.0`. -/
def labelMatches (ws : List String) (n : GNode) : Bool :=
  ws.any (fun w => hasSub n.label.data w.data) && decide ((1 : ℚ) < n.strength)

/-- Insert into a list kept in descending `key` order. -/
def insDesc {α : Type} (key : α → ℚ) (a : α) : List α → List α
  | [] => [a]
  | b :: bs => if key b < key a then a :: b :: bs else b :: insDesc key a bs

/-- `ORDER BY key DESC` as an insertion sort. -/
def sortDesc {α : Type} (key : α → ℚ) : List α → List α
  | [] => []
  | a :: as => insDesc key a (sortDesc key as)

/-- The node `SELECT` of `getRelatedMemories`:
`... WHERE (label LIKE ...) AND strength > 1.0 ORDER BY strength DESC
LIMIT 15`. -/
def selNodes (g : Graph) (ws : List String) : List GNode :=
  (sortDesc (fun n => n.strength) (g.nodes.filter (labelMatches ws))).take 15

/-- The `WHERE` clause of the edge `SELECT`: the edge touches one of the
matched labels and `weight > 0.5`. -/
def touches (ls : List String) (e : GEdge) : Bool :=
  (ls.contains e.source || ls.contains e.target) && decide ((0.5 : ℚ) < e.weight)

/-- The edge `SELECT` of `getRelatedMemories`:
`... WHERE (source_label IN ... OR target_label IN ...) AND weight > 0.5
ORDER BY weight DESC LIMIT ?`. -/
def selEdges (g : Graph) (ls : List String) (lim : ℕ) : List GEdge :=
  (sortDesc (fun e => e.weight) (g.edges.filter (touches ls))).take lim

/-- The result of `getRelatedMemories` (the early `return []` cases are the
empty result). -/
structure RecallResult where
  nodes : List GNode
  edges : List GEdge
  summary : String
  deriving DecidableEq

/-- One recalled fact, `source —[relationship]→ target`. -/
def edgeFact (e : GEdge) : String :=
  e.source ++ " —[" ++ e.relationship ++ "]→ " ++ e.target

/-- `getRelatedMemories(query, limit)` as a pure function of the store:
tokenize the query, match nodes, walk edges, render the summary. -/
def getRelatedMemories (g : Graph) (q : String) (lim : ℕ) : RecallResult :=
  match jsWords q with
  | [] => ⟨[], [], ""⟩
  | w :: ws =>
    match selNodes g (w :: ws) with
    | [] => ⟨[], [], ""⟩
    | m :: ms =>
      let labels := (m :: ms).map (fun n => n.label)
      let edges := selEdges g labels lim
      let facts := edges.map edgeFact
      ⟨m :: ms, edges,
        if facts = [] then ""
        else "Graph recall (Active Nodes: " ++ joinSep ", " labels ++ "): "
          ++ joinSep "; " facts⟩

/-- The SQL statements `getRelatedMemories` issues, in source order: nothing
when the query yields no words; the node `SELECT`, and then — only when
some node matched — the edge `SELECT`.  Both are reads. -/
def getRelatedMemoriesOps (g : Graph) (q : String) (lim : ℕ) : List GraphOp :=
  match jsWords q with
  | [] => []
  | w :: ws =>
    GraphOp.qNodes (w :: ws) ::
      (match selNodes g (w :: ws) with
      | [] => []
      | m :: ms => [GraphOp.qEdges ((m :: ms).map (fun n => n.label)) lim])

/-- C9: a recall query never mutates the graph store: running the
statements issued by `getRelatedMemories` leaves the store — every node,
every strength, every edge, every weight — exactly as it was, because every
statement it issues is a read; the decay/prune statements occur only in
`memoryKeepGraphOps`, the consolidation step. -/
theorem c9_recall_is_read_only (g : Graph) (q : String) (lim : ℕ) :
    runOps (getRelatedMemoriesOps g q lim) g = g
    ∧ ∀ op ∈ getRelatedMemoriesOps g q lim, ∀ h, applyOp op h = h := by
  rcases hw : jsWords q with _ | ⟨w, ws⟩
  · constructor
    · simp [getRelatedMemoriesOps, hw, runOps]
    · intro op hop
      simp [getRelatedMemoriesOps, hw] at hop
  · rcases hs : selNodes g (w :: ws) with _ | ⟨m, ms⟩
    · constructor
      · simp [getRelatedMemoriesOps, hw, hs, runOps, applyOp, List.foldl]
      · intro op hop
        simp [getRelatedMemoriesOps, hw, hs] at hop
        subst hop
        intro h; rfl
    · constructor
      · simp [getRelatedMemoriesOps, hw, hs, runOps, applyOp, List.foldl]
      · intro op hop
        simp [getRelatedMemoriesOps, hw, hs] at hop
        rcases hop with h1 | h2
        · subst h1; intro h; rfl
        · subst h2; intro h; rfl

/-- Witness for C9 at a concrete store and query. -/
theorem c9_witness :
    runOps (getRelatedMemoriesOps
        ⟨[GNode.mk "luna" "entity" 2], [GEdge.mk "luna" "cat" "is_a" 2]⟩
        "my cat luna" 8)
      ⟨[GNode.mk "luna" "entity" 2], [GEdge.mk "luna" "cat" "is_a" 2]⟩
    = ⟨[GNode.mk "luna" "entity" 2], [GEdge.mk "luna" "cat" "is_a" 2]⟩ :=
  (c9_recall_is_read_only
    ⟨[GNode.mk "luna" "entity" 2], [GEdge.mk "luna" "cat" "is_a" 2]⟩
    "my cat luna" 8).1

end Maice
